/-
Verification of the ITK worker thread pool (itkThreadPool.h) and the
ImageRegionSimpleIterator (itkImageRegionSimpleIterator.h) against their
natural-language specification.

The thread pool is embedded as an explicit state machine.  The inline
code of the header (AddWork, GetMaximumNumberOfThreads) is translated
directly from the source.  The members that are only declared in the
header (ThreadExecute, the destructor, AddThreads,
GetGlobalDefaultNumberOfThreads, GetInstance) are modelled from the
specification text; each such definition carries a doc comment saying so.
-/
import Mathlib

namespace ITK

/-! ### Task and result model

A submitted callable with its bound arguments is modelled as a function
`fn : Nat → Except Unit Nat` together with the bound argument `arg`.
The outcome of running the task body is `fn arg`: `Except.ok v` models a
normal return of value `v`, `Except.error ()` models a body that raises.
The std::future returned by AddWork is modelled as a slot in the pool
state, indexed by a sequentially assigned handle id. -/

/-- Outcome of one task body: a returned value or a raised failure. -/
abbrev Outcome := Except Unit Nat

/-- One unit of work sitting in the queue: the zero-argument closure is
kept as the bound pair (fn, arg) plus the id of the future linked to it
by the packaged task. -/
structure Task where
  handleId : Nat
  fn : Nat → Outcome
  arg : Nat

/-- State of one ThreadPool object.  `workQueue` is m_WorkQueue (front of
the deque at the head of the list), `threads` is m_Threads (thread ids),
`stopping` is m_Stopping.  `handles` holds the futures created so far,
indexed by handle id: `none` is a not-yet-satisfied future.  `submitted`
is a ghost log of every task ever passed to AddWork, in submission
order, used only to state theorems.  `nextThread` generates fresh thread
ids. -/
structure PoolState where
  workQueue : List Task
  threads : List Nat
  stopping : Bool
  handles : List (Option Outcome)
  submitted : List Task
  nextThread : Nat

/-- The freshly constructed pool: empty queue, no threads, not stopping. -/
def initState : PoolState :=
  { workQueue := [], threads := [], stopping := false, handles := [],
    submitted := [], nextThread := 0 }

/-- Satisfy the future with id `i` with outcome `v` (the packaged task
writing its result through its promise side). -/
def setHandle (hs : List (Option Outcome)) (i : Nat) (v : Outcome) :
    List (Option Outcome) :=
  hs.set i (some v)

/-- ThreadPool::AddWork, translated from the inline body in
itkThreadPool.h: make a packaged task binding the function to its
arguments, take its future, append the closure to m_WorkQueue under the
queue lock, notify one waiting worker, and return the future.  There is
no check of m_Stopping and no failure path: the deque is unbounded and
emplace_back always succeeds.  Returns the handle id of the new future
together with the new pool state. -/
def AddWork (s : PoolState) (fn : Nat → Outcome) (arg : Nat) :
    Nat × PoolState :=
  (s.handles.length,
   { s with
      workQueue := s.workQueue ++ [⟨s.handles.length, fn, arg⟩],
      handles := s.handles ++ [none],
      submitted := s.submitted ++ [⟨s.handles.length, fn, arg⟩] })

/-- ThreadPool::GetMaximumNumberOfThreads, translated from the inline
body in itkThreadPool.h: return m_Threads.size(). -/
def GetMaximumNumberOfThreads (s : PoolState) : Nat :=
  s.threads.length

/-- Observable micro-events of the worker loop and the destructor, used
to state lock discipline and join behaviour. -/
inductive PoolEvent where
  | acquire
  | release
  | popFront (taskId : Nat)
  | executeTask (taskId : Nat)
  | writeHandle (taskId : Nat)
  | exitThread
  | returnToWait
  | setStopping
  | notifyAll
  | joinThread (tid : Nat)
deriving DecidableEq

/-- Modelled from the spec: one wakeup iteration of
ThreadPool::ThreadExecute, whose body is not under src/ (only its
declaration is).  Per the spec worker-loop state machine: the woken
worker re-acquires the queue lock; if the queue is non-empty it pops the
front task, releases the lock, executes the task body outside the lock
and writes the outcome into the linked future; if the queue is empty and
stopping is true it exits; if the queue is empty and not stopping it
returns to waiting (spurious wakeup).  Returns the emitted event trace
and the new pool state. -/
def ThreadExecuteStep (s : PoolState) : List PoolEvent × PoolState :=
  match s.workQueue with
  | t :: rest =>
      ([PoolEvent.acquire, PoolEvent.popFront t.handleId, PoolEvent.release,
        PoolEvent.executeTask t.handleId, PoolEvent.writeHandle t.handleId],
       { s with workQueue := rest,
                handles := setHandle s.handles t.handleId (t.fn t.arg) })
  | [] =>
      if s.stopping then
        ([PoolEvent.acquire, PoolEvent.release, PoolEvent.exitThread], s)
      else
        ([PoolEvent.acquire, PoolEvent.release, PoolEvent.returnToWait], s)

/-- Modelled from the spec: ThreadPool::AddThreads, whose body is not
under src/ (only its declaration is).  Spawns `count` new worker threads
and appends their handles to the collection; pre-existing workers and
in-flight tasks are unaffected. -/
def AddThreads (s : PoolState) (count : Nat) : PoolState :=
  { s with threads := s.threads ++ (List.range count).map (· + s.nextThread),
           nextThread := s.nextThread + count }

/-- Run every task still sitting in the queue, in order, writing each
outcome into its future: the drain performed by the workers between
shutdown broadcast and join. -/
def drain (q : List Task) (hs : List (Option Outcome)) :
    List (Option Outcome) :=
  match q with
  | [] => hs
  | t :: rest => drain rest (setHandle hs t.handleId (t.fn t.arg))

/-- Modelled from the spec: the ThreadPool destructor, whose body is not
under src/ (only its declaration is).  Set stopping to true under the
queue lock, wake all workers with a broadcast, then join every worker
thread handle in turn — unless the DoNotWaitForThreads flag is set, in
which case the join step is skipped entirely and the threads are
abandoned.  When joining, the workers drain the queue before exiting, so
every task enqueued before shutdown began completes before the
destructor returns. -/
def destroyPool (doNotWait : Bool) (s : PoolState) :
    List PoolEvent × PoolState :=
  if doNotWait then
    ([PoolEvent.acquire, PoolEvent.setStopping, PoolEvent.release,
      PoolEvent.notifyAll],
     { s with stopping := true })
  else
    ([PoolEvent.acquire, PoolEvent.setStopping, PoolEvent.release,
      PoolEvent.notifyAll] ++ s.threads.map PoolEvent.joinThread,
     { s with stopping := true, workQueue := [],
              handles := drain s.workQueue s.handles })

/-- The operations that can act on a pool state. -/
inductive PoolOp where
  | addWork (fn : Nat → Outcome) (arg : Nat)
  | addThreads (count : Nat)
  | workerWake
  | destroy (doNotWait : Bool)

/-- Apply one operation to the pool state. -/
def applyOp (op : PoolOp) (s : PoolState) : PoolState :=
  match op with
  | PoolOp.addWork fn arg => (AddWork s fn arg).2
  | PoolOp.addThreads k => AddThreads s k
  | PoolOp.workerWake => (ThreadExecuteStep s).2
  | PoolOp.destroy dnw => (destroyPool dnw s).2

/-- Run a sequence of operations from a given state. -/
def runPool (ops : List PoolOp) (s : PoolState) : PoolState :=
  match ops with
  | [] => s
  | op :: rest => runPool rest (applyOp op s)

/-! ### Pool invariant

The invariant tying the futures to the ghost submission log, maintained
by every operation; it is what makes the result-delivery claims
provable. -/

/-- Invariant of a reachable pool state: handle ids index the submission
log, queued tasks are logged at their own id, no id is queued twice, a
future is unsatisfied exactly while its task is still queued, and a
satisfied future holds the outcome of its own task body. -/
structure Inv (s : PoolState) : Prop where
  len_eq : s.handles.length = s.submitted.length
  sub_ids : ∀ i : Nat, ∀ t : Task, s.submitted[i]? = some t → t.handleId = i
  queue_sub : ∀ t ∈ s.workQueue, s.submitted[t.handleId]? = some t
  queue_nodup : (s.workQueue.map Task.handleId).Nodup
  pending_iff : ∀ i : Nat, i < s.handles.length →
      (s.handles[i]? = some none ↔ i ∈ s.workQueue.map Task.handleId)
  sat_correct : ∀ i : Nat, ∀ out : Outcome, s.handles[i]? = some (some out) →
      ∃ t : Task, s.submitted[i]? = some t ∧ out = t.fn t.arg

/-- Does an executeTask event occur while the lock depth is positive?
Folds the event trace tracking how many acquires are unmatched. -/
def lockedExec (depth : Nat) (evs : List PoolEvent) : Bool :=
  match evs with
  | [] => false
  | PoolEvent.acquire :: rest => lockedExec (depth + 1) rest
  | PoolEvent.release :: rest => lockedExec (depth - 1) rest
  | PoolEvent.executeTask _ :: rest => decide (0 < depth) || lockedExec depth rest
  | _ :: rest => lockedExec depth rest

/-! ### Default thread count and singleton access (modelled from spec) -/

/-- Read a decimal digit string, most significant first, accumulating
into `acc`; any non-digit character rejects the whole string. -/
def parseNatAux : List Char → Nat → Option Nat
  | [], acc => some acc
  | c :: cs, acc =>
      if 48 ≤ c.toNat ∧ c.toNat ≤ 57 then
        parseNatAux cs (acc * 10 + (c.toNat - 48))
      else
        none

/-- Does the environment override hold a valid positive integer?
Numeric string parsing: accepted only when every character is a decimal
digit and the denoted value is positive (so the empty string and "0"
are rejected). -/
def parsePositiveNat (v : String) : Option Nat :=
  match parseNatAux v.toList 0 with
  | some n => if 0 < n then some n else none
  | none => none

/-- Modelled from the spec: ThreadPool::GetGlobalDefaultNumberOfThreads,
whose body is not under src/ (only its declaration is).  A pure function
of the environment override and the detected hardware concurrency: the
override is used when present and valid, otherwise the hardware count
clamped to at least 1.  Being a plain function it is callable whether or
not a pool has been constructed. -/
def GetGlobalDefaultNumberOfThreads (env : Option String) (hw : Nat) : Nat :=
  match env with
  | some v =>
    match parsePositiveNat v with
    | some n => n
    | none => max hw 1
  | none => max hw 1

/-- Modelled from the spec: one call of ThreadPool::GetInstance, whose
body is not under src/ (only its declaration is).  The initialization is
a synchronized create-if-absent: the whole check-and-create is atomic
because the race is serialized by the synchronization primitive, so a
concurrent execution is some sequential order of the calls.  `inst` is
the already-registered instance id, `fresh` the id a construction would
produce; returns the id handed to the caller and the new registry. -/
def GetInstanceCall (inst : Option Nat) (fresh : Nat) : Nat × Option Nat :=
  match inst with
  | some i => (i, some i)
  | none => (fresh, some fresh)

/-- `n` GetInstance callers in their serialized order.  Returns the ids
handed to the callers, the final registry, and how many times the
ThreadPool constructor ran. -/
def GetInstanceCalls : Nat → Nat → Option Nat → List Nat × Option Nat × Nat
  | 0, _, inst => ([], inst, 0)
  | n + 1, fresh, inst =>
      let first := GetInstanceCall inst fresh
      let rest := GetInstanceCalls n fresh first.2
      (first.1 :: rest.1, rest.2.1,
       (if inst = none then 1 else 0) + rest.2.2)

/-! ### ImageRegionSimpleIterator

Embedding of itkImageRegionSimpleIterator.h.  One dimension of the
iterator carries the entries of m_PositionIndex, m_BeginIndex and
m_EndIndex; the list is ordered fastest-varying dimension first
(Index[0] = col).  m_Position is modelled as an integer offset into the
buffer and m_End as the one-past-the-end offset. -/

/-- Per-dimension slice of m_PositionIndex, m_BeginIndex, m_EndIndex. -/
structure DimIndex where
  positionIndex : Int
  beginIndex : Int
  endIndex : Int
deriving DecidableEq

/-- The iterator state used by operator++. -/
structure IterState where
  dims : List DimIndex
  position : Int
  endPos : Int
  remaining : Bool
deriving DecidableEq

/-- The for-loop of operator++ translated from the source: increment the
current dimension; if it is still below its end index, stop with
m_Remaining true (the single m_Position++ of the break branch is
accounted for by the caller); otherwise reset it to its begin index and
carry into the next dimension.  Returns the new index and the final
m_Remaining flag. -/
def incrIndex : List DimIndex → List DimIndex × Bool
  | [] => ([], false)
  | d :: rest =>
      if d.positionIndex + 1 < d.endIndex then
        ({ d with positionIndex := d.positionIndex + 1 } :: rest, true)
      else
        let r := incrIndex rest
        ({ d with positionIndex := d.beginIndex } :: r.1, r.2)

/-- ImageRegionSimpleIterator::operator++ translated from the source:
m_Remaining starts false; the loop ripples through the dimensions; on a
break (some dimension still in range) m_Position was incremented once
and m_Remaining set; if the loop finished with m_Remaining still false,
m_Position is set to m_End. -/
def operatorInc (s : IterState) : IterState :=
  let r := incrIndex s.dims
  if r.2 then
    { s with dims := r.1, position := s.position + 1, remaining := true }
  else
    { s with dims := r.1, position := s.endPos, remaining := false }

/-- The index lies within the region in every dimension. -/
def inRange (ds : List DimIndex) : Prop :=
  ∀ d ∈ ds, d.beginIndex ≤ d.positionIndex ∧ d.positionIndex < d.endIndex

instance (ds : List DimIndex) : Decidable (inRange ds) :=
  List.decidableBAll _ ds

/-- Every dimension is at its last in-region value, so the next
increment overflows all of them. -/
def atLast (ds : List DimIndex) : Bool :=
  ds.all fun d => !(d.positionIndex + 1 < d.endIndex)

/-- Linear offset of the index within its region, fastest-varying
dimension first: the value operator++ must advance by one. -/
def rank : List DimIndex → Int
  | [] => 0
  | d :: rest =>
      (d.positionIndex - d.beginIndex) + (d.endIndex - d.beginIndex) * rank rest

/-! ### Concrete states used to instantiate theorems with hypotheses -/

/-- A task whose body raises. -/
def failTask : Task := ⟨0, fun _ => Except.error (), 5⟩

/-- A pool holding one queued failing task and its pending future. -/
def failState : PoolState :=
  { workQueue := [failTask], threads := [], stopping := false,
    handles := [none], submitted := [failTask], nextThread := 0 }

/-- A pool holding one queued ordinary task and its pending future. -/
def busyState : PoolState :=
  { workQueue := [⟨0, fun n => Except.ok n, 4⟩], threads := [],
    stopping := false, handles := [none],
    submitted := [⟨0, fun n => Except.ok n, 4⟩], nextThread := 0 }

/-- An empty pool that has entered shutdown. -/
def stopState : PoolState := { initState with stopping := true }

/-- Submit two squaring tasks and let workers run both. -/
def opsSquare : List PoolOp :=
  [PoolOp.addWork (fun n => Except.ok (n * n)) 7,
   PoolOp.addWork (fun n => Except.ok (n * n)) 8,
   PoolOp.workerWake, PoolOp.workerWake]

/-- Grow the pool by two workers and submit one task. -/
def opsGrow : List PoolOp :=
  [PoolOp.addThreads 2, PoolOp.addWork (fun n => Except.ok (n + 1)) 3]

/-- A 2-by-3 region iterator standing at index (1, 0): the fastest
dimension is about to wrap while the second still has room. -/
def iterA : IterState :=
  { dims := [⟨1, 0, 2⟩, ⟨0, 0, 3⟩], position := 1, endPos := 6,
    remaining := true }

/-- A 2-by-3 region iterator at the last index (1, 2) of its region. -/
def iterB : IterState :=
  { dims := [⟨1, 0, 2⟩, ⟨2, 0, 3⟩], position := 5, endPos := 6,
    remaining := true }

/-! ### C1: submission after shutdown -/

/-- Claim C1 as stated is false on the code: with the pool already
stopping, AddWork is not rejected; it succeeds and the task IS placed on
the queue.  Concretely, from the empty pool with stopping set, AddWork
returns handle 0 and the queue afterwards holds one task. -/
theorem C1_counterexample :
    ({ initState with stopping := true } : PoolState).stopping = true ∧
    (AddWork { initState with stopping := true }
        (fun n => Except.ok n) 7).1 = 0 ∧
    (AddWork { initState with stopping := true }
        (fun n => Except.ok n) 7).2.workQueue.length = 1 :=
  ⟨rfl, rfl, rfl⟩

/-- Claim C1 amended: AddWork never fails for any reason.  In every pool
state — stopping or not — it appends the bound task to the unbounded
queue, creates one fresh unsatisfied future and returns its handle;
there is no shutdown check and no error path in AddWork. -/
theorem AddWork_never_fails (s : PoolState) (fn : Nat → Outcome)
    (arg : Nat) :
    (AddWork s fn arg).2.workQueue
        = s.workQueue ++ [⟨s.handles.length, fn, arg⟩] ∧
    (AddWork s fn arg).2.handles = s.handles ++ [none] ∧
    (AddWork s fn arg).1 = s.handles.length ∧
    (AddWork s fn arg).2.stopping = s.stopping :=
  ⟨rfl, rfl, rfl, rfl⟩

/-! ### Helper lemmas about drain and the invariant -/

theorem drain_length (q : List Task) (hs : List (Option Outcome)) :
    (drain q hs).length = hs.length := by
  induction q generalizing hs with
  | nil => rfl
  | cons t rest ih => rw [drain, ih]; simp [setHandle]

theorem drain_notMem (q : List Task) (hs : List (Option Outcome))
    (i : Nat) (h : i ∉ q.map Task.handleId) :
    (drain q hs)[i]? = hs[i]? := by
  induction q generalizing hs with
  | nil => rfl
  | cons t rest ih =>
    simp only [List.map_cons, List.mem_cons, not_or] at h
    rw [drain, ih _ h.2, setHandle,
      List.getElem?_set_ne (fun hh => h.1 hh.symm)]

theorem drain_mem (q : List Task) (hs : List (Option Outcome)) (t : Task)
    (hmem : t ∈ q) (hnd : (q.map Task.handleId).Nodup)
    (hlen : t.handleId < hs.length) :
    (drain q hs)[t.handleId]? = some (some (t.fn t.arg)) := by
  induction q generalizing hs with
  | nil => cases hmem
  | cons u rest ih =>
    simp only [List.map_cons, List.nodup_cons] at hnd
    rcases List.mem_cons.1 hmem with heq | hmem2
    · subst heq
      rw [drain, drain_notMem rest _ _ hnd.1, setHandle,
        List.getElem?_set_self hlen]
    · rw [drain]
      exact ih _ hmem2 hnd.2 (by simpa [setHandle] using hlen)

theorem Inv_initState : Inv initState := by
  constructor
  · rfl
  · intro i t h; simp [initState] at h
  · intro t h; simp [initState] at h
  · simp [initState]
  · intro i h; simp [initState] at h
  · intro i out h; simp [initState] at h

theorem Inv_AddWork (s : PoolState) (fn : Nat → Outcome) (arg : Nat)
    (h : Inv s) : Inv (AddWork s fn arg).2 := by
  obtain ⟨hlen, hsub, hq, hnd, hpend, hsat⟩ := h
  have hqlt : ∀ t ∈ s.workQueue, t.handleId < s.submitted.length := by
    intro t ht
    exact (List.getElem?_eq_some.1 (hq t ht)).1
  constructor
  · simp [AddWork, hlen]
  · intro i t ht
    simp only [AddWork] at ht
    rcases Nat.lt_trichotomy i s.submitted.length with hi | hi | hi
    · rw [List.getElem?_append_left hi] at ht
      exact hsub i t ht
    · subst hi
      rw [List.getElem?_concat_length] at ht
      cases ht
      exact hlen
    · have hlt := (List.getElem?_eq_some.1 ht).1
      simp only [List.length_append, List.length_cons,
        List.length_nil] at hlt
      omega
  · intro t ht
    simp only [AddWork, List.mem_append, List.mem_singleton] at ht ⊢
    rcases ht with ht | ht
    · rw [List.getElem?_append_left (hqlt t ht)]
      exact hq t ht
    · subst ht
      simp only [hlen]
      rw [List.getElem?_concat_length]
  · simp only [AddWork, List.map_append, List.map_cons, List.map_nil]
    rw [List.nodup_append]
    refine ⟨hnd, List.nodup_singleton _, ?_⟩
    intro i hi hmem
    simp only [List.mem_singleton] at hmem
    subst hmem
    obtain ⟨t, ht, hteq⟩ := List.mem_map.1 hi
    have := hqlt t ht
    omega
  · intro i hi
    simp only [AddWork, List.length_append, List.length_cons,
      List.length_nil] at hi
    simp only [AddWork, List.map_append, List.map_cons, List.map_nil,
      List.mem_append, List.mem_singleton]
    rcases Nat.lt_or_ge i s.handles.length with hlt | hge
    · rw [List.getElem?_append_left hlt]
      rw [hpend i hlt]
      constructor
      · intro hm; exact Or.inl hm
      · rintro (hm | hm)
        · exact hm
        · omega
    · have hieq : i = s.handles.length := by omega
      subst hieq
      rw [List.getElem?_concat_length]
      simp
  · intro i out hsome
    simp only [AddWork] at hsome ⊢
    rcases Nat.lt_or_ge i s.handles.length with hlt | hge
    · rw [List.getElem?_append_left hlt] at hsome
      obtain ⟨t, ht1, ht2⟩ := hsat i out hsome
      refine ⟨t, ?_, ht2⟩
      rw [List.getElem?_append_left (List.getElem?_eq_some.1 ht1).1]
      exact ht1
    · rcases Nat.lt_or_ge i (s.handles.length + 1) with hlt2 | hge2
      · have hieq : i = s.handles.length := by omega
        subst hieq
        rw [List.getElem?_concat_length] at hsome
        simp at hsome
      · have hlt := (List.getElem?_eq_some.1 hsome).1
        simp only [List.length_append, List.length_cons,
          List.length_nil] at hlt
        omega

theorem ThreadExecuteStep_empty (s : PoolState) (hqe : s.workQueue = []) :
    (ThreadExecuteStep s).2 = s := by
  simp only [ThreadExecuteStep, hqe]
  split <;> rfl

theorem Inv_ThreadExecuteStep (s : PoolState) (h : Inv s) :
    Inv (ThreadExecuteStep s).2 := by
  cases hqe : s.workQueue with
  | nil => rw [ThreadExecuteStep_empty s hqe]; exact h
  | cons t rest =>
    obtain ⟨hlen, hsub, hq, hnd, hpend, hsat⟩ := h
    have hstep : (ThreadExecuteStep s).2 =
        { s with workQueue := rest,
                 handles := setHandle s.handles t.handleId (t.fn t.arg) } := by
      simp [ThreadExecuteStep, hqe]
    rw [hstep]
    have hmem : t ∈ s.workQueue := by
      rw [hqe]; exact List.mem_cons_self t rest
    have hsubt := hq t hmem
    have hidlt : t.handleId < s.submitted.length :=
      (List.getElem?_eq_some.1 hsubt).1
    have hidlt2 : t.handleId < s.handles.length := by omega
    have hndc : t.handleId ∉ rest.map Task.handleId ∧
        (rest.map Task.handleId).Nodup := by
      rw [hqe] at hnd
      simpa [List.nodup_cons] using hnd
    constructor
    · simp [setHandle, hlen]
    · exact hsub
    · intro u hu
      exact hq u (by rw [hqe]; exact List.mem_cons_of_mem _ hu)
    · exact hndc.2
    · intro i hilen
      simp only [setHandle, List.length_set] at hilen ⊢
      by_cases hit : i = t.handleId
      · subst hit
        rw [List.getElem?_set_self hidlt2]
        constructor
        · intro hx; simp at hx
        · intro hx; exact absurd hx hndc.1
      · rw [List.getElem?_set_ne (fun hh => hit hh.symm)]
        rw [hpend i hilen, hqe]
        simp [List.mem_cons, hit]
    · intro i out hsome
      simp only [setHandle] at hsome
      by_cases hit : i = t.handleId
      · subst hit
        rw [List.getElem?_set_self hidlt2] at hsome
        have hout : t.fn t.arg = out := by simpa using hsome
        exact ⟨t, hsubt, hout.symm⟩
      · rw [List.getElem?_set_ne (fun hh => hit hh.symm)] at hsome
        exact hsat i out hsome

theorem Inv_AddThreads (s : PoolState) (k : Nat) (h : Inv s) :
    Inv (AddThreads s k) := by
  obtain ⟨h1, h2, h3, h4, h5, h6⟩ := h
  exact ⟨h1, h2, h3, h4, h5, h6⟩

theorem Inv_destroyPool (dnw : Bool) (s : PoolState) (h : Inv s) :
    Inv (destroyPool dnw s).2 := by
  cases dnw with
  | true =>
    obtain ⟨h1, h2, h3, h4, h5, h6⟩ := h
    exact ⟨h1, h2, h3, h4, h5, h6⟩
  | false =>
    obtain ⟨hlen, hsub, hq, hnd, hpend, hsat⟩ := h
    have hres : (destroyPool false s).2 =
        { s with stopping := true, workQueue := [],
                 handles := drain s.workQueue s.handles } := rfl
    rw [hres]
    have hqlt : ∀ t ∈ s.workQueue, t.handleId < s.handles.length := by
      intro t ht
      have := (List.getElem?_eq_some.1 (hq t ht)).1
      omega
    constructor
    · simp [drain_length, hlen]
    · exact hsub
    · intro t ht
      exact absurd ht (List.not_mem_nil t)
    · simp
    · intro i hilen
      simp only [drain_length] at hilen
      constructor
      · intro hx
        exfalso
        by_cases hmem : i ∈ s.workQueue.map Task.handleId
        · obtain ⟨t, htq, hteq⟩ := List.mem_map.1 hmem
          have hd := drain_mem s.workQueue s.handles t htq hnd (hqlt t htq)
          rw [hteq] at hd
          rw [hd] at hx
          simp at hx
        · rw [drain_notMem _ _ _ hmem, hpend i hilen] at hx
          exact hmem hx
      · intro hx
        simp at hx
    · intro i out hsome
      by_cases hmem : i ∈ s.workQueue.map Task.handleId
      · obtain ⟨t, htq, hteq⟩ := List.mem_map.1 hmem
        have hd := drain_mem s.workQueue s.handles t htq hnd (hqlt t htq)
        rw [hteq] at hd
        rw [hd] at hsome
        have hout : t.fn t.arg = out := by simpa using hsome
        refine ⟨t, ?_, hout.symm⟩
        rw [← hteq]
        exact hq t htq
      · rw [drain_notMem _ _ _ hmem] at hsome
        exact hsat i out hsome

theorem threads_length_mono (op : PoolOp) (s : PoolState) :
    s.threads.length ≤ (applyOp op s).threads.length := by
  cases op with
  | addWork fn arg => exact Nat.le_refl _
  | addThreads k =>
    show s.threads.length ≤ (AddThreads s k).threads.length
    simp [AddThreads]
  | workerWake =>
    cases hqe : s.workQueue with
    | nil =>
      show s.threads.length ≤ (ThreadExecuteStep s).2.threads.length
      rw [ThreadExecuteStep_empty s hqe]
    | cons t rest =>
      have hth : (ThreadExecuteStep s).2.threads = s.threads := by
        simp [ThreadExecuteStep, hqe]
      show s.threads.length ≤ (ThreadExecuteStep s).2.threads.length
      rw [hth]
  | destroy dnw =>
    cases dnw with
    | true => exact Nat.le_refl _
    | false => exact Nat.le_refl _

theorem Inv_applyOp (op : PoolOp) (s : PoolState) (h : Inv s) :
    Inv (applyOp op s) := by
  cases op with
  | addWork fn arg => exact Inv_AddWork s fn arg h
  | addThreads k => exact Inv_AddThreads s k h
  | workerWake => exact Inv_ThreadExecuteStep s h
  | destroy dnw => exact Inv_destroyPool dnw s h

theorem Inv_runPool (ops : List PoolOp) (s : PoolState) (h : Inv s) :
    Inv (runPool ops s) := by
  induction ops generalizing s with
  | nil => exact h
  | cons op rest ih => exact ih _ (Inv_applyOp op s h)

theorem satisfied_persists (op : PoolOp) (s : PoolState) (h : Inv s)
    (i : Nat) (out : Outcome) (hs : s.handles[i]? = some (some out)) :
    (applyOp op s).handles[i]? = some (some out) := by
  have hilt : i < s.handles.length := (List.getElem?_eq_some.1 hs).1
  have hnotq : i ∉ s.workQueue.map Task.handleId := by
    intro hmem
    rw [← h.pending_iff i hilt, hs] at hmem
    simp at hmem
  cases op with
  | addWork fn arg =>
    show (s.handles ++ [none])[i]? = some (some out)
    rw [List.getElem?_append_left hilt]
    exact hs
  | addThreads k => exact hs
  | workerWake =>
    cases hqe : s.workQueue with
    | nil =>
      show (ThreadExecuteStep s).2.handles[i]? = some (some out)
      rw [ThreadExecuteStep_empty s hqe]
      exact hs
    | cons t rest =>
      have hne : t.handleId ≠ i := by
        intro hh
        exact hnotq (by rw [hqe]; simp [← hh])
      have hstep : (ThreadExecuteStep s).2 =
          { s with workQueue := rest,
                   handles := setHandle s.handles t.handleId (t.fn t.arg) } := by
        simp [ThreadExecuteStep, hqe]
      show (ThreadExecuteStep s).2.handles[i]? = some (some out)
      rw [hstep]
      show (setHandle s.handles t.handleId (t.fn t.arg))[i]? = some (some out)
      rw [setHandle, List.getElem?_set_ne hne]
      exact hs
  | destroy dnw =>
    cases dnw with
    | true => exact hs
    | false =>
      show (drain s.workQueue s.handles)[i]? = some (some out)
      rw [drain_notMem _ _ _ hnotq]
      exact hs

/-! ### C2: every future resolves to its own task body value -/

/-- Claim C2: in every reachable pool state, each submission gets a
fresh future of its own (AddWork returns the next unused handle, at
which no value is readable yet); a satisfied future holds exactly the
value the submitted callable produces on its bound argument (regardless
of the order the operations ran in); a satisfied future keeps its value
under every further operation (satisfied exactly once); and once the
queue has emptied, every future is satisfied. -/
theorem AddWork_results_correct (ops : List PoolOp) :
    (∀ fn arg, (AddWork (runPool ops initState) fn arg).1
          = (runPool ops initState).handles.length ∧
        (runPool ops initState).handles[(AddWork
            (runPool ops initState) fn arg).1]? = none) ∧
    (∀ (i : Nat) (out : Outcome),
        (runPool ops initState).handles[i]? = some (some out) →
        ∃ t : Task, (runPool ops initState).submitted[i]? = some t ∧
          out = t.fn t.arg) ∧
    (∀ (op : PoolOp) (i : Nat) (out : Outcome),
        (runPool ops initState).handles[i]? = some (some out) →
        (applyOp op (runPool ops initState)).handles[i]?
          = some (some out)) ∧
    ((runPool ops initState).workQueue = [] →
        ∀ i : Nat, i < (runPool ops initState).handles.length →
          ∃ out : Outcome,
            (runPool ops initState).handles[i]? = some (some out)) := by
  have hinv := Inv_runPool ops initState Inv_initState
  refine ⟨?_, ?_, ?_, ?_⟩
  · intro fn arg
    exact ⟨rfl, List.getElem?_eq_none (Nat.le_refl _)⟩
  · intro i out hsome
    exact hinv.sat_correct i out hsome
  · intro op i out hsome
    exact satisfied_persists op _ hinv i out hsome
  · intro hempty i hi
    cases hx : (runPool ops initState).handles[i]? with
    | none =>
      rw [List.getElem?_eq_none_iff] at hx
      omega
    | some x =>
      cases x with
      | none =>
        have hm := (hinv.pending_iff i hi).1 hx
        rw [hempty] at hm
        simp at hm
      | some out => exact ⟨out, rfl⟩

/-- Witness for C2: running two squaring submissions to completion, the
future of the first submission holds exactly the value its callable
produces on 7, the value survives a later operation, and with the queue
empty the second future is satisfied as well. -/
theorem AddWork_results_correct_witness :
    (∃ t, (runPool opsSquare initState).submitted[0]? = some t ∧
        Except.ok 49 = t.fn t.arg) ∧
    (applyOp (PoolOp.addThreads 2) (runPool opsSquare initState)).handles[0]?
        = some (some (Except.ok 49)) ∧
    (∃ out, (runPool opsSquare initState).handles[1]?
        = some (some out)) :=
  ⟨(AddWork_results_correct opsSquare).2.1 0 (Except.ok 49) rfl,
   (AddWork_results_correct opsSquare).2.2.1 (PoolOp.addThreads 2) 0
     (Except.ok 49) rfl,
   (AddWork_results_correct opsSquare).2.2.2 rfl 1 (by decide)⟩

/-! ### C3: a failing task body is isolated to its own future -/

/-- Claim C3: when the task at the head of the queue raises, the worker
step delivers the failure into that task and only that task future, the
worker does not exit (no exitThread event is emitted, so the loop
continues; the process is never terminated since the step is a total
function), every other future is untouched, and the remaining queued
tasks are left in place. -/
theorem task_failure_isolated (s : PoolState) (t : Task)
    (rest : List Task) (e : Unit) (hq : s.workQueue = t :: rest)
    (hf : t.fn t.arg = Except.error e)
    (hlen : t.handleId < s.handles.length) :
    (ThreadExecuteStep s).2.handles[t.handleId]?
        = some (some (Except.error e)) ∧
    PoolEvent.exitThread ∉ (ThreadExecuteStep s).1 ∧
    (∀ i, i ≠ t.handleId →
        (ThreadExecuteStep s).2.handles[i]? = s.handles[i]?) ∧
    (ThreadExecuteStep s).2.workQueue = rest := by
  have hhs : (ThreadExecuteStep s).2.handles
      = setHandle s.handles t.handleId (t.fn t.arg) := by
    simp [ThreadExecuteStep, hq]
  have hev : (ThreadExecuteStep s).1
      = [PoolEvent.acquire, PoolEvent.popFront t.handleId,
         PoolEvent.release, PoolEvent.executeTask t.handleId,
         PoolEvent.writeHandle t.handleId] := by
    simp [ThreadExecuteStep, hq]
  refine ⟨?_, ?_, ?_, ?_⟩
  · rw [hhs, hf, setHandle, List.getElem?_set_self hlen]
  · rw [hev]
    simp
  · intro i hi
    rw [hhs, setHandle, List.getElem?_set_ne (fun hh => hi hh.symm)]
  · simp [ThreadExecuteStep, hq]

/-- Witness for C3: one concrete failing task; its failure lands in its
own future, the worker keeps running, the sibling future slot is
untouched. -/
theorem task_failure_isolated_witness :
    (ThreadExecuteStep failState).2.handles[failTask.handleId]?
        = some (some (Except.error ())) ∧
    PoolEvent.exitThread ∉ (ThreadExecuteStep failState).1 ∧
    (∀ i, i ≠ failTask.handleId →
        (ThreadExecuteStep failState).2.handles[i]?
          = failState.handles[i]?) ∧
    (ThreadExecuteStep failState).2.workQueue = [] :=
  task_failure_isolated failState failTask [] () rfl rfl (by decide)

/-! ### C4: the worker loop case analysis and lock discipline -/

/-- Claim C4: a woken worker that finds the queue non-empty pops the
front task, and the event trace shows the release strictly before the
execution (acquire, pop, release, execute, write); with the queue empty
and stopping set it exits; with the queue empty and stopping unset it
returns to waiting, leaving the state unchanged; and in every state the
trace never performs an execution while the lock depth is positive. -/
theorem worker_loop_cases (s : PoolState) :
    (∀ t rest, s.workQueue = t :: rest →
        (ThreadExecuteStep s).2.workQueue = rest ∧
        (ThreadExecuteStep s).1
          = [PoolEvent.acquire, PoolEvent.popFront t.handleId,
             PoolEvent.release, PoolEvent.executeTask t.handleId,
             PoolEvent.writeHandle t.handleId]) ∧
    (s.workQueue = [] → s.stopping = true →
        (ThreadExecuteStep s).1
          = [PoolEvent.acquire, PoolEvent.release, PoolEvent.exitThread] ∧
        (ThreadExecuteStep s).2 = s) ∧
    (s.workQueue = [] → s.stopping = false →
        (ThreadExecuteStep s).1
          = [PoolEvent.acquire, PoolEvent.release,
             PoolEvent.returnToWait] ∧
        (ThreadExecuteStep s).2 = s) ∧
    lockedExec 0 (ThreadExecuteStep s).1 = false := by
  refine ⟨?_, ?_, ?_, ?_⟩
  · intro t rest hq
    constructor
    · simp [ThreadExecuteStep, hq]
    · simp [ThreadExecuteStep, hq]
  · intro hq hst
    constructor
    · simp [ThreadExecuteStep, hq, hst]
    · exact ThreadExecuteStep_empty s hq
  · intro hq hst
    constructor
    · simp [ThreadExecuteStep, hq, hst]
    · exact ThreadExecuteStep_empty s hq
  · cases hq : s.workQueue with
    | nil =>
      cases hst : s.stopping with
      | false => simp [ThreadExecuteStep, hq, hst, lockedExec]
      | true => simp [ThreadExecuteStep, hq, hst, lockedExec]
    | cons t rest => simp [ThreadExecuteStep, hq, lockedExec]

/-- Witness for C4: the three branches exercised on concrete pools (one
queued task; empty and stopping; empty and idle), plus the lock check on
the busy pool. -/
theorem worker_loop_cases_witness :
    ((ThreadExecuteStep busyState).2.workQueue = [] ∧
      (ThreadExecuteStep busyState).1
        = [PoolEvent.acquire, PoolEvent.popFront 0, PoolEvent.release,
           PoolEvent.executeTask 0, PoolEvent.writeHandle 0]) ∧
    ((ThreadExecuteStep stopState).1
        = [PoolEvent.acquire, PoolEvent.release, PoolEvent.exitThread] ∧
      (ThreadExecuteStep stopState).2 = stopState) ∧
    ((ThreadExecuteStep initState).1
        = [PoolEvent.acquire, PoolEvent.release, PoolEvent.returnToWait] ∧
      (ThreadExecuteStep initState).2 = initState) ∧
    lockedExec 0 (ThreadExecuteStep busyState).1 = false :=
  ⟨(worker_loop_cases busyState).1 ⟨0, fun n => Except.ok n, 4⟩ [] rfl,
   (worker_loop_cases stopState).2.1 rfl rfl,
   (worker_loop_cases initState).2.2.1 rfl rfl,
   (worker_loop_cases busyState).2.2.2⟩

/-! ### C5: the shutdown protocol -/

/-- Claim C5: destroying any reachable pool first sets stopping under
the queue lock (the trace starts acquire, setStopping, release) and then
broadcasts to all workers; when DoNotWaitForThreads is set the join step
is skipped entirely (the trace is exactly those four events); otherwise
every worker thread handle is joined in turn, and every task enqueued
strictly before shutdown began has completed: the queue is empty and
every future created so far is satisfied when destruction returns. -/
theorem shutdown_protocol (ops : List PoolOp) (dnw : Bool) :
    (destroyPool dnw (runPool ops initState)).1.take 4
        = [PoolEvent.acquire, PoolEvent.setStopping, PoolEvent.release,
           PoolEvent.notifyAll] ∧
    (destroyPool dnw (runPool ops initState)).2.stopping = true ∧
    (dnw = true → (destroyPool dnw (runPool ops initState)).1
        = [PoolEvent.acquire, PoolEvent.setStopping, PoolEvent.release,
           PoolEvent.notifyAll]) ∧
    (dnw = false → (destroyPool dnw (runPool ops initState)).1
        = [PoolEvent.acquire, PoolEvent.setStopping, PoolEvent.release,
           PoolEvent.notifyAll]
          ++ (runPool ops initState).threads.map PoolEvent.joinThread) ∧
    (dnw = false →
        (destroyPool dnw (runPool ops initState)).2.workQueue = [] ∧
        ∀ i, i < (runPool ops initState).handles.length →
          ∃ out, (destroyPool dnw (runPool ops initState)).2.handles[i]?
            = some (some out)) := by
  have hinv := Inv_runPool ops initState Inv_initState
  cases dnw with
  | true =>
    refine ⟨rfl, rfl, fun _ => rfl, ?_, ?_⟩
    · intro hfalse; cases hfalse
    · intro hfalse; cases hfalse
  | false =>
    have hinv2 := Inv_destroyPool false (runPool ops initState) hinv
    refine ⟨?_, rfl, ?_, fun _ => rfl, ?_⟩
    · exact List.take_left' rfl
    · intro hfalse; cases hfalse
    · intro _
      refine ⟨rfl, ?_⟩
      intro i hi
      have hlen2 : i < (destroyPool false
          (runPool ops initState)).2.handles.length := by
        show i < (drain (runPool ops initState).workQueue
          (runPool ops initState).handles).length
        rw [drain_length]
        exact hi
      cases hx : (destroyPool false (runPool ops initState)).2.handles[i]? with
      | none =>
        rw [List.getElem?_eq_none_iff] at hx
        omega
      | some x =>
        cases x with
        | none =>
          have hm := (hinv2.pending_iff i hlen2).1 hx
          simp [destroyPool] at hm
        | some out => exact ⟨out, rfl⟩

/-- Witness for C5: a pool grown by two workers with one queued task;
without the flag the trace joins both workers and the queued task
future is satisfied on return; with the flag the trace stops at the
broadcast. -/
theorem shutdown_protocol_witness :
    (destroyPool false (runPool opsGrow initState)).1
        = [PoolEvent.acquire, PoolEvent.setStopping, PoolEvent.release,
           PoolEvent.notifyAll]
          ++ (runPool opsGrow initState).threads.map PoolEvent.joinThread ∧
    (destroyPool false (runPool opsGrow initState)).2.workQueue = [] ∧
    (∃ out, (destroyPool false (runPool opsGrow initState)).2.handles[0]?
        = some (some out)) ∧
    (destroyPool true (runPool opsGrow initState)).1
        = [PoolEvent.acquire, PoolEvent.setStopping, PoolEvent.release,
           PoolEvent.notifyAll] :=
  ⟨(shutdown_protocol opsGrow false).2.2.2.1 rfl,
   ((shutdown_protocol opsGrow false).2.2.2.2 rfl).1,
   ((shutdown_protocol opsGrow false).2.2.2.2 rfl).2 0 (by decide),
   (shutdown_protocol opsGrow true).2.2.1 rfl⟩

/-! ### C6: AddThreads grows the pool monotonically -/

/-- Claim C6: AddThreads(k) raises GetMaximumNumberOfThreads by exactly
k, keeps every pre-existing worker handle in place, leaves the queue and
the futures untouched, and no operation whatsoever ever lowers
GetMaximumNumberOfThreads (there is no remove-thread operation). -/
theorem AddThreads_grows (s : PoolState) (k : Nat) :
    GetMaximumNumberOfThreads (AddThreads s k)
        = GetMaximumNumberOfThreads s + k ∧
    (AddThreads s k).threads.take s.threads.length = s.threads ∧
    (AddThreads s k).workQueue = s.workQueue ∧
    (AddThreads s k).handles = s.handles ∧
    ∀ op : PoolOp, GetMaximumNumberOfThreads s
        ≤ GetMaximumNumberOfThreads (applyOp op s) := by
  refine ⟨?_, List.take_left _ _, rfl, rfl, ?_⟩
  · simp [AddThreads, GetMaximumNumberOfThreads]
  · intro op
    exact threads_length_mono op s

/-! ### C7: the one-way latch and the grow-only handle collection -/

/-- Claim C7 as stated is false on the model: it asserts that at
destruction all worker handles are joined, but with DoNotWaitForThreads
set the join step is suppressed.  Concretely, destroying a pool holding
one worker handle (thread id 0) with the flag set emits no join event at
all. -/
theorem pool_invariants_counterexample :
    (AddThreads initState 1).threads = [0] ∧
    (destroyPool true (AddThreads initState 1)).1
        = [PoolEvent.acquire, PoolEvent.setStopping, PoolEvent.release,
           PoolEvent.notifyAll] ∧
    PoolEvent.joinThread 0 ∉ (destroyPool true (AddThreads initState 1)).1 :=
  ⟨rfl, rfl, by decide⟩

/-- Claim C7 amended: in every reachable state, once stopping is true no
operation resets it; no operation removes a worker handle (the
collection only grows, keeping the existing prefix in place); and at
destruction every handle is joined provided DoNotWaitForThreads is not
set. -/
theorem pool_invariants (op : PoolOp) (s : PoolState) :
    (s.stopping = true → (applyOp op s).stopping = true) ∧
    s.threads.length ≤ (applyOp op s).threads.length ∧
    (applyOp op s).threads.take s.threads.length = s.threads ∧
    (∀ tid ∈ s.threads,
        PoolEvent.joinThread tid ∈ (destroyPool false s).1) := by
  refine ⟨?_, threads_length_mono op s, ?_, ?_⟩
  · intro hst
    cases op with
    | addWork fn arg => exact hst
    | addThreads k => exact hst
    | workerWake =>
      cases hqe : s.workQueue with
      | nil =>
        show (ThreadExecuteStep s).2.stopping = true
        rw [ThreadExecuteStep_empty s hqe]
        exact hst
      | cons t rest =>
        have : (ThreadExecuteStep s).2.stopping = s.stopping := by
          simp [ThreadExecuteStep, hqe]
        show (ThreadExecuteStep s).2.stopping = true
        rw [this]
        exact hst
    | destroy dnw =>
      cases dnw with
      | true => rfl
      | false => rfl
  · cases op with
    | addWork fn arg =>
      show List.take s.threads.length s.threads = s.threads
      exact List.take_length _
    | addThreads k =>
      show (s.threads ++ _).take s.threads.length = s.threads
      exact List.take_left _ _
    | workerWake =>
      cases hqe : s.workQueue with
      | nil =>
        show (ThreadExecuteStep s).2.threads.take s.threads.length
            = s.threads
        rw [ThreadExecuteStep_empty s hqe]
        exact List.take_length _
      | cons t rest =>
        have hth : (ThreadExecuteStep s).2.threads = s.threads := by
          simp [ThreadExecuteStep, hqe]
        show (ThreadExecuteStep s).2.threads.take s.threads.length
            = s.threads
        rw [hth]
        exact List.take_length _
    | destroy dnw =>
      cases dnw with
      | true =>
        show List.take s.threads.length s.threads = s.threads
        exact List.take_length _
      | false =>
        show List.take s.threads.length s.threads = s.threads
        exact List.take_length _
  · intro tid htid
    show PoolEvent.joinThread tid ∈
        [PoolEvent.acquire, PoolEvent.setStopping, PoolEvent.release,
         PoolEvent.notifyAll] ++ s.threads.map PoolEvent.joinThread
    rw [List.mem_append]
    exact Or.inr (List.mem_map_of_mem PoolEvent.joinThread htid)

/-- Witness for C7: a stopped pool with one worker handle; submitting
more work keeps stopping set, and an unsuppressed destruction joins the
worker. -/
theorem pool_invariants_witness :
    (applyOp (PoolOp.addWork (fun n => Except.ok n) 1)
        { initState with stopping := true, threads := [5] }).stopping
      = true ∧
    PoolEvent.joinThread 5 ∈ (destroyPool false
        { initState with stopping := true, threads := [5] }).1 :=
  ⟨(pool_invariants (PoolOp.addWork (fun n => Except.ok n) 1)
      { initState with stopping := true, threads := [5] }).1 rfl,
   (pool_invariants (PoolOp.addWork (fun n => Except.ok n) 1)
      { initState with stopping := true, threads := [5] }).2.2.2 5
     (by decide)⟩

/-! ### C8: the default thread count -/

/-- Claim C8: GetGlobalDefaultNumberOfThreads returns the environment
override whenever the recognized variable parses as a valid positive
integer, and otherwise (invalid or absent) returns the detected hardware
concurrency clamped to at least 1; in all cases the result is at least
1, and the definition is a pure function of environment and host. -/
theorem default_thread_count (env : Option String) (hw : Nat) :
    (∀ (v : String) (n : Nat), env = some v → parsePositiveNat v = some n →
        GetGlobalDefaultNumberOfThreads env hw = n) ∧
    (∀ v : String, env = some v → parsePositiveNat v = none →
        GetGlobalDefaultNumberOfThreads env hw = max hw 1) ∧
    (env = none → GetGlobalDefaultNumberOfThreads env hw = max hw 1) ∧
    1 ≤ GetGlobalDefaultNumberOfThreads env hw := by
  refine ⟨?_, ?_, ?_, ?_⟩
  · intro v n hv hp
    subst hv
    simp [GetGlobalDefaultNumberOfThreads, hp]
  · intro v hv hp
    subst hv
    simp [GetGlobalDefaultNumberOfThreads, hp]
  · intro hv
    subst hv
    rfl
  · cases env with
    | none => simp [GetGlobalDefaultNumberOfThreads]
    | some v =>
      cases hp : parsePositiveNat v with
      | none => simp [GetGlobalDefaultNumberOfThreads, hp]
      | some n =>
        have hn : 0 < n := by
          unfold parsePositiveNat at hp
          cases htn : parseNatAux v.toList 0 with
          | none => rw [htn] at hp; cases hp
          | some m =>
            rw [htn] at hp
            by_cases hm : 0 < m
            · simp [hm] at hp
              omega
            · simp [hm] at hp
        simp [GetGlobalDefaultNumberOfThreads, hp]
        omega

/-- Witness for C8: override "3" with 8 detected cores yields 3; an
invalid override "zero" falls back to the clamp; no override with 0
detected cores still yields at least 1. -/
theorem default_thread_count_witness :
    GetGlobalDefaultNumberOfThreads (some "3") 8 = 3 ∧
    GetGlobalDefaultNumberOfThreads (some "zero") 8 = max 8 1 ∧
    GetGlobalDefaultNumberOfThreads none 0 = max 0 1 ∧
    1 ≤ GetGlobalDefaultNumberOfThreads none 0 :=
  ⟨(default_thread_count (some "3") 8).1 "3" 3 rfl (by decide),
   (default_thread_count (some "zero") 8).2.1 "zero" rfl (by decide),
   (default_thread_count none 0).2.2.1 rfl,
   (default_thread_count none 0).2.2.2⟩

/-! ### C9: the singleton is constructed at most once -/

theorem GetInstanceCalls_some (n fresh i : Nat) :
    (GetInstanceCalls n fresh (some i)).1 = List.replicate n i ∧
    (GetInstanceCalls n fresh (some i)).2.1 = some i ∧
    (GetInstanceCalls n fresh (some i)).2.2 = 0 := by
  induction n with
  | zero => exact ⟨rfl, rfl, rfl⟩
  | succ m ih =>
    refine ⟨?_, ?_, ?_⟩
    · show (GetInstanceCall (some i) fresh).1
          :: (GetInstanceCalls m fresh (GetInstanceCall (some i) fresh).2).1
          = List.replicate (m + 1) i
      rw [List.replicate_succ]
      show i :: (GetInstanceCalls m fresh (some i)).1
          = i :: List.replicate m i
      rw [ih.1]
    · show (GetInstanceCalls m fresh (some i)).2.1 = some i
      exact ih.2.1
    · show (if (some i : Option Nat) = none then 1 else 0)
          + (GetInstanceCalls m fresh (some i)).2.2 = 0
      rw [ih.2.2]
      simp

/-- Claim C9: with no instance yet, any positive number of GetInstance
callers — in whatever serialized order the synchronization primitive
admits — all receive the same instance identity, that identity becomes
the registered singleton, and the constructor runs exactly once; callers
arriving when an instance already exists run no construction and receive
the existing identity. -/
theorem GetInstance_once (n fresh : Nat) (hn : 0 < n) :
    (GetInstanceCalls n fresh none).1 = List.replicate n fresh ∧
    (GetInstanceCalls n fresh none).2.1 = some fresh ∧
    (GetInstanceCalls n fresh none).2.2 = 1 ∧
    (∀ m i : Nat, (GetInstanceCalls m fresh (some i)).1
          = List.replicate m i ∧
        (GetInstanceCalls m fresh (some i)).2.2 = 0) := by
  cases n with
  | zero => exact absurd hn (Nat.lt_irrefl 0)
  | succ m =>
    have h := GetInstanceCalls_some m fresh fresh
    refine ⟨?_, ?_, ?_, ?_⟩
    · show (GetInstanceCall none fresh).1
          :: (GetInstanceCalls m fresh (GetInstanceCall none fresh).2).1
          = List.replicate (m + 1) fresh
      rw [List.replicate_succ]
      show fresh :: (GetInstanceCalls m fresh (some fresh)).1
          = fresh :: List.replicate m fresh
      rw [h.1]
    · show (GetInstanceCalls m fresh (some fresh)).2.1 = some fresh
      exact h.2.1
    · show (if (none : Option Nat) = none then 1 else 0)
          + (GetInstanceCalls m fresh (some fresh)).2.2 = 1
      rw [h.2.2]
      simp
    · intro m2 i
      exact ⟨(GetInstanceCalls_some m2 fresh i).1,
             (GetInstanceCalls_some m2 fresh i).2.2⟩

/-- Witness for C9: three callers racing before any instance exists all
receive identity 42, and the constructor runs once. -/
theorem GetInstance_once_witness :
    (GetInstanceCalls 3 42 none).1 = List.replicate 3 42 ∧
    (GetInstanceCalls 3 42 none).2.1 = some 42 ∧
    (GetInstanceCalls 3 42 none).2.2 = 1 :=
  ⟨(GetInstance_once 3 42 (by decide)).1,
   (GetInstance_once 3 42 (by decide)).2.1,
   (GetInstance_once 3 42 (by decide)).2.2.1⟩

/-! ### C10: the region iterator increment -/

theorem incrIndex_spec (ds : List DimIndex) (h : inRange ds) :
    (incrIndex ds).2 = !(atLast ds) ∧
    ((incrIndex ds).2 = true → inRange (incrIndex ds).1 ∧
        rank (incrIndex ds).1 = rank ds + 1) ∧
    ((incrIndex ds).2 = false →
        ∀ d ∈ (incrIndex ds).1, d.positionIndex = d.beginIndex) := by
  induction ds with
  | nil =>
    refine ⟨rfl, ?_, ?_⟩
    · intro hfalse; cases hfalse
    · intro _ d hd; cases hd
  | cons d rest ih =>
    have hd := h d (List.mem_cons_self d rest)
    have hrest : inRange rest := fun u hu => h u (List.mem_cons_of_mem d hu)
    obtain ⟨ih1, ih2, ih3⟩ := ih hrest
    by_cases hc : d.positionIndex + 1 < d.endIndex
    · have hres : incrIndex (d :: rest)
          = ({ d with positionIndex := d.positionIndex + 1 } :: rest,
             true) := by
        simp [incrIndex, hc]
      rw [hres]
      refine ⟨?_, ?_, ?_⟩
      · simp [atLast, hc]
      · intro _
        constructor
        · intro u hu
          rcases List.mem_cons.1 hu with rfl | hu2
          · refine ⟨?_, ?_⟩
            · show d.beginIndex ≤ d.positionIndex + 1
              omega
            · show d.positionIndex + 1 < d.endIndex
              exact hc
          · exact hrest u hu2
        · simp [rank]
          ring
      · intro hfalse; cases hfalse
    · have hres : incrIndex (d :: rest)
          = ({ d with positionIndex := d.beginIndex }
              :: (incrIndex rest).1, (incrIndex rest).2) := by
        simp [incrIndex, hc]
      rw [hres]
      refine ⟨?_, ?_, ?_⟩
      · simp [atLast, hc, ih1]
      · intro htrue
        obtain ⟨hin, hrk⟩ := ih2 htrue
        constructor
        · intro u hu
          rcases List.mem_cons.1 hu with rfl | hu2
          · refine ⟨?_, ?_⟩
            · show d.beginIndex ≤ d.beginIndex
              exact le_refl _
            · show d.beginIndex < d.endIndex
              omega
          · exact hin u hu2
        · simp only [rank, hrk]
          have hp2 : d.positionIndex = d.endIndex - 1 := by omega
          rw [hp2]
          ring
      · intro hfalse u hu
        rcases List.mem_cons.1 hu with rfl | hu2
        · rfl
        · exact ih3 hfalse u hu2

/-- Claim C10: for an iterator whose index lies within its region,
operator++ ripples through the dimensions fastest-varying first,
resetting each dimension that reaches its end index back to its begin
index and carrying into the next one.  Whenever some dimension remains
in range, the linear buffer position advances by exactly one element
(even across wraps): m_Position gains 1 and so does the rank of the
index within the region, which stays in range with m_Remaining true.
When every dimension overflows, m_Position is set to the
one-past-the-end position m_End, m_Remaining is left false, and every
dimension has been reset to its begin index. -/
theorem operatorInc_spec (s : IterState) (h : inRange s.dims) :
    (atLast s.dims = false →
        (operatorInc s).position = s.position + 1 ∧
        (operatorInc s).remaining = true ∧
        inRange (operatorInc s).dims ∧
        rank (operatorInc s).dims = rank s.dims + 1) ∧
    (atLast s.dims = true →
        (operatorInc s).position = s.endPos ∧
        (operatorInc s).remaining = false ∧
        ∀ d ∈ (operatorInc s).dims, d.positionIndex = d.beginIndex) := by
  obtain ⟨h1, h2, h3⟩ := incrIndex_spec s.dims h
  constructor
  · intro hal
    have ht : (incrIndex s.dims).2 = true := by rw [h1, hal]; rfl
    have hop : operatorInc s
        = { s with dims := (incrIndex s.dims).1,
                   position := s.position + 1, remaining := true } := by
      simp [operatorInc, ht]
    obtain ⟨hin, hrk⟩ := h2 ht
    rw [hop]
    exact ⟨rfl, rfl, hin, hrk⟩
  · intro hal
    have hf : (incrIndex s.dims).2 = false := by rw [h1, hal]; rfl
    have hop : operatorInc s
        = { s with dims := (incrIndex s.dims).1,
                   position := s.endPos, remaining := false } := by
      simp [operatorInc, hf]
    rw [hop]
    exact ⟨rfl, rfl, h3 hf⟩

/-- Witness for C10: on the 2-by-3 region, stepping from (1,0) wraps the
fastest dimension yet advances the buffer position by exactly one, and
stepping from the last index (1,2) parks the iterator at m_End with
m_Remaining false and the whole index reset. -/
theorem operatorInc_spec_witness :
    ((operatorInc iterA).position = iterA.position + 1 ∧
      (operatorInc iterA).remaining = true ∧
      inRange (operatorInc iterA).dims ∧
      rank (operatorInc iterA).dims = rank iterA.dims + 1) ∧
    ((operatorInc iterB).position = iterB.endPos ∧
      (operatorInc iterB).remaining = false ∧
      ∀ d ∈ (operatorInc iterB).dims, d.positionIndex = d.beginIndex) :=
  ⟨(operatorInc_spec iterA (by decide)).1 (by decide),
   (operatorInc_spec iterB (by decide)).2 (by decide)⟩

end ITK
